import Mathlib

/-!
Verification of the linting core (token store, source-code position index,
linter driver) against its natural-language specification.

Source text is modelled as `List Char`; machine integers are `Nat`/`Int`.
JavaScript `undefined`/absent object properties are modelled with `Option`;
thrown exceptions with `Except`/`Option` results.
-/

/- ## Token store: cursor composition (token-store/cursor-factory, decorators)

A cursor is an object with `moveNext : Bool` and a `current` slot; every
decorator interacts with its inner cursor only through `super.moveNext()`,
i.e. by pulling the next item of the inner cursor's yield sequence.  We
therefore represent a cursor by the list of items its successive `moveNext`
calls yield, and translate each decorator's `moveNext` loop into a function
from the inner cursor's yield sequence to the decorated cursor's yield
sequence. -/

/-- Model of `FilterCursor.moveNext` (filter-cursor.ts): `while (super.moveNext()) { if
(predicate(this.current)) return true } return false`, iterated to produce the
whole yield sequence over the inner cursor's yields. -/
def filterCursorStream (p : α → Bool) : List α → List α
  | [] => []
  | x :: xs => if p x then x :: filterCursorStream p xs else filterCursorStream p xs

/-- Model of `SkipCursor.moveNext` (skip-cursor.ts): `while (this.count > 0) {
this.count -= 1; if (!super.moveNext()) return false } return
super.moveNext()`, iterated over the inner cursor's yields. -/
def skipCursorStream : Nat → List α → List α
  | 0, xs => xs
  | _ + 1, [] => []
  | n + 1, _ :: xs => skipCursorStream n xs

/-- Model of `LimitCursor.moveNext` (limit-cursor.ts): `if (this.count > 0) {
this.count -= 1; return super.moveNext() } return false`, iterated over the
inner cursor's yields. -/
def limitCursorStream : Nat → List α → List α
  | 0, _ => []
  | _ + 1, [] => []
  | n + 1, x :: xs => x :: limitCursorStream n xs

/-- Model of `CursorFactory.createCursor` (cursor-factory.ts): starting from the base
cursor it applies `FilterCursor` when `filter` is non-null, `SkipCursor` when
`skip >= 1`, and `LimitCursor` when `count >= 0`, in that fixed order.
`baseItems` is the yield sequence of the base cursor. -/
def createCursor (baseItems : List α) (filter : Option (α → Bool)) (skip : Int) (count : Int) :
    List α :=
  let c1 :=
    match filter with
    | some p => filterCursorStream p baseItems
    | none => baseItems
  let c2 := if 1 ≤ skip then skipCursorStream skip.toNat c1 else c1
  if 0 ≤ count then limitCursorStream count.toNat c2 else c2

/- ## Source code: sortedMerge (source-code.ts) -/

/-- A token or comment as far as ranges are concerned: `range[0]` and
`range[1]` of a `Token`/`Comment`. -/
structure TokT where
  rangeStart : Nat
  rangeEnd : Nat
deriving DecidableEq

/-- Model of `sortedMerge` (source-code.ts): merges the two arrays by repeatedly taking
the token when comments are exhausted or the token starts strictly first, and
the comment otherwise. -/
def sortedMerge : List TokT → List TokT → List TokT
  | [], [] => []
  | t :: ts, [] => t :: sortedMerge ts []
  | [], c :: cs => c :: sortedMerge [] cs
  | t :: ts, c :: cs =>
    if t.rangeStart < c.rangeStart then t :: sortedMerge ts (c :: cs)
    else c :: sortedMerge (t :: ts) cs

/-- Model of `nodesOrTokensOverlap` (source-code.ts). -/
def nodesOrTokensOverlap (a b : TokT) : Bool :=
  (decide (a.rangeStart ≤ b.rangeStart) && decide (a.rangeEnd ≥ b.rangeStart)) ||
    (decide (b.rangeStart ≤ a.rangeStart) && decide (b.rangeEnd ≥ a.rangeStart))

/- ## Linter: suppressed-message distinction (linter.ts) -/

/-- A textual edit `{ range: [start, end), text }`. -/
structure LintFix where
  rangeStart : Nat
  rangeEnd : Nat
  text : List Char
deriving DecidableEq

/-- The `message` string of a problem, as structured data: the constructor
records which template built the string and the data interpolated into it. -/
inductive MessageV where
  | empty
  | text (s : List Char)
  | parsingError (stripped : List Char)
  | ruleRemoved (ruleId : List Char) (replacements : List (List Char))
  | ruleNotFound (ruleId : List Char)
deriving DecidableEq

/-- A reported message as the linter constructs it.  Object properties that
may be absent are `Option`s; `suppressions` is present exactly on suppressed
problems. -/
structure LintProblem where
  ruleId : Option (List Char) := none
  severity : Nat := 2
  fatal : Bool := false
  line : Option Int := none
  column : Option Int := none
  endLine : Option Int := none
  endColumn : Option Int := none
  suppressions : Option (List Nat) := none
  fix : Option LintFix := none
  message : MessageV := .empty
deriving DecidableEq

/-- Model of `Linter._distinguishSuppressedMessages` (linter.ts): walks the problems in
order, pushing each one with a `suppressions` property onto the suppressed
list and every other one onto the returned message list; the suppressed list
is stored in the internal slots as `lastSuppressedMessages`. -/
def distinguishSuppressedMessages : List LintProblem → List LintProblem × List LintProblem
  | [] => ([], [])
  | p :: rest =>
    let (ms, ss) := distinguishSuppressedMessages rest
    if p.suppressions.isSome then (ms, p :: ss) else (p :: ms, ss)

/-- Internal slot written by `_distinguishSuppressedMessages` and read by
`getSuppressedMessages` (linter.ts). -/
structure LinterSlots where
  lastSuppressedMessages : List LintProblem
deriving DecidableEq

/-- The tail of `Linter.verify`: the produced problems go through
`_distinguishSuppressedMessages`; the first component is returned and the
second is stored in the slots. -/
def verifyReturn (problems : List LintProblem) : List LintProblem × LinterSlots :=
  let (ms, ss) := distinguishSuppressedMessages problems
  (ms, ⟨ss⟩)

/-- Model of `Linter.getSuppressedMessages` (linter.ts). -/
def getSuppressedMessages (s : LinterSlots) : List LintProblem :=
  s.lastSuppressedMessages

/- ## Linter: extractDirectiveComment (linter.ts) -/

/-- JavaScript `\s` (with the `u` flag) and the `String.trim` character class:
space, tab, LF, VT, FF, CR, NBSP, U+1680, U+2000..U+200A, LS, PS, U+202F,
U+205F, U+3000, BOM. -/
def isJsWhitespace (c : Char) : Bool :=
  c = ' ' || c = '\t' || c = '\n' || c = Char.ofNat 11 || c = Char.ofNat 12 || c = '\r' ||
    c = Char.ofNat 0xa0 || c = Char.ofNat 0x1680 ||
    (decide (0x2000 ≤ c.toNat) && decide (c.toNat ≤ 0x200a)) ||
    c = Char.ofNat 0x2028 || c = Char.ofNat 0x2029 || c = Char.ofNat 0x202f ||
    c = Char.ofNat 0x205f || c = Char.ofNat 0x3000 || c = Char.ofNat 0xfeff

/-- JavaScript `String.prototype.trim`. -/
def jsTrim (s : List Char) : List Char :=
  ((s.dropWhile isJsWhitespace).reverse.dropWhile isJsWhitespace).reverse

/-- Length of the leading run of `-` characters (the greedy `-{2,}`). -/
def dashRunLen : List Char → Nat
  | '-' :: rest => dashRunLen rest + 1
  | _ => 0

/-- Whether a list starts with a JavaScript whitespace character. -/
def headIsWS : List Char → Bool
  | c :: _ => isJsWhitespace c
  | [] => false

/-- Model of `RegExp.exec` of `/\s-{2,}\s/u` (linter.ts `extractDirectiveComment`):
scan left to right; at a whitespace character the greedy dash run must have
length at least 2 and be followed by whitespace, otherwise there is no match
at this position (backtracking to a shorter dash run cannot succeed, because
the next character after a shorter run is another dash).  Returns
`(match.index, match[0].length)`. -/
def findJustifSep : List Char → Nat → Option (Nat × Nat)
  | [], _ => none
  | c :: rest, i =>
    if isJsWhitespace c then
      let d := dashRunLen rest
      if 2 ≤ d ∧ headIsWS (rest.drop d) then some (i, d + 2)
      else findJustifSep rest (i + 1)
    else findJustifSep rest (i + 1)

/-- The two parts returned by `extractDirectiveComment`. -/
structure DirectiveParts where
  directivePart : List Char
  justificationPart : List Char
deriving DecidableEq

/-- Model of `extractDirectiveComment` (linter.ts): if `/\s-{2,}\s/u` has no match the
whole trimmed value is the directive part and the justification is empty;
otherwise the trimmed text before the match is the directive part and the
trimmed text after the match is the justification. -/
def extractDirectiveComment (value : List Char) : DirectiveParts :=
  match findJustifSep value 0 with
  | none => ⟨jsTrim value, []⟩
  | some (i, len) => ⟨jsTrim (value.take i), jsTrim (value.drop (i + len))⟩

/-- The claim's version of the separator search: the pattern `\s--\s`
(whitespace, exactly two dashes, whitespace), leftmost match. -/
def findClaimSep : List Char → Nat → Option Nat
  | a :: '-' :: '-' :: b :: rest, i =>
    if isJsWhitespace a ∧ isJsWhitespace b then some i
    else findClaimSep ('-' :: '-' :: b :: rest) (i + 1)
  | _ :: rest, i => findClaimSep rest (i + 1)
  | [], _ => none

/-- Model of `extractDirectiveComment` as the claim C8 describes it, with the
separator pattern `\s--\s` (match length 4). -/
def extractDirectiveCommentClaim (value : List Char) : DirectiveParts :=
  match findClaimSep value 0 with
  | none => ⟨jsTrim value, []⟩
  | some i => ⟨jsTrim (value.take i), jsTrim (value.drop (i + 4))⟩

/-- The separator pattern `\s-{2,}\s` tested at one fixed position: the match
length when the suffix starts with whitespace, then a greedy dash run of
length at least 2, then whitespace. -/
def sepMatchLen (s : List Char) : Option Nat :=
  match s with
  | c :: rest =>
    if isJsWhitespace c then
      let d := dashRunLen rest
      if 2 ≤ d ∧ headIsWS (rest.drop d) then some (d + 2) else none
    else none
  | [] => none

/-- Model of `extractDirectiveComment` as the amended claim describes it: the
separator is the leftmost position where `\s-{2,}\s` (whitespace, two or more
dashes, whitespace) matches; the directive part is the trimmed text before
that position and the justification is the trimmed text after the matched
separator; with no such position the whole trimmed value is the directive
part and the justification is empty. -/
def extractDirectiveCommentSpec (value : List Char) : DirectiveParts :=
  match (List.range (value.length + 1)).findSome?
      (fun i => (sepMatchLen (value.drop i)).map (fun len => (i, len))) with
  | none => ⟨jsTrim value, []⟩
  | some (i, len) => ⟨jsTrim (value.take i), jsTrim (value.drop (i + len))⟩

/- ## Fix arbitrator (modelled from the spec) and multi-pass driver (linter.ts) -/

/-- The result shape of `SourceCodeFixer.applyFixes` and `Linter.verifyAndFix`. -/
structure FixResult where
  fixed : Bool
  messages : List LintProblem
  output : List Char
deriving DecidableEq

/-- The sort key of a candidate fix: `(range.start, range.end)`. -/
def fixKeyLE (a b : LintProblem) : Bool :=
  match a.fix, b.fix with
  | some fa, some fb =>
    decide (fa.rangeStart < fb.rangeStart) ||
      (decide (fa.rangeStart = fb.rangeStart) && decide (fa.rangeEnd ≤ fb.rangeEnd))
  | _, _ => true

/-- Stable insertion into a list sorted by `fixKeyLE`. -/
def insertByFixKey (m : LintProblem) : List LintProblem → List LintProblem
  | [] => [m]
  | x :: xs => if fixKeyLE m x then m :: x :: xs else x :: insertByFixKey m xs

/-- Stable sort of candidate fixes by `(range.start asc, range.end asc)`. -/
def sortByFixKey : List LintProblem → List LintProblem
  | [] => []
  | m :: ms => insertByFixKey m (sortByFixKey ms)

/-- Greedy selection: walk the sorted candidates keeping a `lastPos`; accept a
fix whose `range.start` is at least `lastPos` (advancing `lastPos` to its
`range.end`), otherwise keep the message as unapplied. -/
def selectFixes : List LintProblem → Nat → List LintFix × List LintProblem
  | [], _ => ([], [])
  | m :: ms, lastPos =>
    match m.fix with
    | some f =>
      if lastPos ≤ f.rangeStart then
        let (a, r) := selectFixes ms f.rangeEnd
        (f :: a, r)
      else
        let (a, r) := selectFixes ms lastPos
        (a, m :: r)
    | none =>
      let (a, r) := selectFixes ms lastPos
      (a, m :: r)

/-- Splice the accepted fixes (sorted ascending, pairwise disjoint) into the
text in a single pass. -/
def spliceFixes (text : List Char) : List LintFix → Nat → List Char
  | [], pos => text.drop pos
  | f :: fs, pos =>
    (text.drop pos).take (f.rangeStart - pos) ++ f.text ++ spliceFixes text fs f.rangeEnd

/-- Modelled from the spec: `SourceCodeFixer.applyFixes` is not part of the
source tree (only its caller `Linter.verifyAndFix` is), so it is modelled
from spec section 4.8: candidate fixes are sorted by `(range.start asc,
range.end asc)`; a maximal non-conflicting subset is selected greedily
(accept a fix whose start is at least the last accepted end); accepted fixes
are spliced in ascending order; `fixed` is true iff at least one fix was
applied; `messages` are the problems whose fixes were not applied.  The `fix`
option may be a boolean or a predicate over problems, modelled as the
predicate `shouldFix`. -/
def applyFixes (text : List Char) (messages : List LintProblem)
    (shouldFix : LintProblem → Bool) : FixResult :=
  let candidates := messages.filter (fun m => m.fix.isSome && shouldFix m)
  let rest := messages.filter (fun m => !(m.fix.isSome && shouldFix m))
  let (applied, rejected) := selectFixes (sortByFixKey candidates) 0
  { fixed := !applied.isEmpty
    messages := rest ++ rejected
    output := spliceFixes text applied 0 }

/-- Model of `MAX_AUTOFIX_PASSES` (linter.ts). -/
def MAX_AUTOFIX_PASSES : Nat := 10

/-- Model of `messages.length === 1 && messages[0].fatal` (linter.ts `verifyAndFix`). -/
def isSingleFatal : List LintProblem → Bool
  | [m] => m.fatal
  | _ => false

/-- One recorded pass of the `verifyAndFix` do-while loop: the text the pass
linted, the messages `verify` returned, and the `applyFixes` result. -/
structure PassRec where
  textBefore : List Char
  messages : List LintProblem
  result : FixResult
deriving DecidableEq

/-- The do-while loop of `Linter.verifyAndFix` (linter.ts): lint the current
text, apply fixes, abort on a single fatal message (without updating
`fixed`/`currentText`), otherwise accumulate `fixed`, move to the fixed
output, and iterate while a fix was applied and fewer than
`MAX_AUTOFIX_PASSES` passes ran.  `fuel` is the structural bound
`MAX_AUTOFIX_PASSES - passNumber` (the `fuel = 0` fallback is unreachable
when that invariant holds); the list of `PassRec`s records the passes for the
theorems. -/
def verifyAndFixLoop (verify : List Char → List LintProblem) (shouldFix : LintProblem → Bool) :
    Nat → Nat → List Char → Bool → FixResult × List Char × Bool × List PassRec
  | fuel, passNumber, currentText, fixed0 =>
    let messages := verify currentText
    let fixedResult := applyFixes currentText messages shouldFix
    if isSingleFatal messages then
      (fixedResult, currentText, fixed0, [⟨currentText, messages, fixedResult⟩])
    else
      if fixedResult.fixed = true ∧ passNumber + 1 < MAX_AUTOFIX_PASSES then
        match fuel with
        | 0 =>
          (fixedResult, fixedResult.output, fixed0 || fixedResult.fixed,
            [⟨currentText, messages, fixedResult⟩])
        | fuel' + 1 =>
          let next := verifyAndFixLoop verify shouldFix fuel' (passNumber + 1)
            fixedResult.output (fixed0 || fixedResult.fixed)
          (next.1, next.2.1, next.2.2.1, ⟨currentText, messages, fixedResult⟩ :: next.2.2.2)
      else
        (fixedResult, fixedResult.output, fixed0 || fixedResult.fixed,
          [⟨currentText, messages, fixedResult⟩])

/-- Model of `Linter.verifyAndFix` (linter.ts): run the loop; if the last pass applied
a fix, lint once more so the messages reflect the final text; overwrite
`fixed` with the accumulated flag and `output` with the final text. -/
def verifyAndFix (verify : List Char → List LintProblem) (shouldFix : LintProblem → Bool)
    (text : List Char) : FixResult :=
  let out := verifyAndFixLoop verify shouldFix MAX_AUTOFIX_PASSES 0 text false
  let fixedResult := out.1
  let currentText := out.2.1
  let fixed := out.2.2.1
  let fr1 :=
    if fixedResult.fixed then { fixedResult with messages := verify currentText }
    else fixedResult
  { fr1 with fixed := fixed, output := currentText }

/-- The recorded passes of a `verifyAndFix` run. -/
def verifyAndFixTrace (verify : List Char → List LintProblem) (shouldFix : LintProblem → Bool)
    (text : List Char) : List PassRec :=
  (verifyAndFixLoop verify shouldFix MAX_AUTOFIX_PASSES 0 text false).2.2.2

/-- A problem whose fix replaces `source[0:1)` with the same character `a`:
applying it changes nothing textually but counts as an applied fix. -/
def identityFixProblem : LintProblem := { fix := some ⟨0, 1, ['a']⟩ }

/- ## Linter: fatal parse errors (linter.ts `parse` and `_verifyWithoutProcessors`) -/

/-- The exception a parser throws: a message plus the position properties
`ex.lineNumber` and `ex.column`, which are absent (`undefined`) when the
parser does not provide them. -/
structure ParserError where
  message : List Char
  lineNumber : Option Int := none
  column : Option Int := none
deriving DecidableEq

/-- ASCII digit test for the `\d+` of the stripped line prefix. -/
def isAsciiDigit (c : Char) : Bool :=
  decide ('0' ≤ c) && decide (c ≤ '9')

/-- Model of `ex.message.replace(/^line \d+:/iu, "")` (linter.ts `parse`): remove a
leading case-insensitive `line `, digits, `:` when present. -/
def stripLeadingLineNo (s : List Char) : List Char :=
  match s with
  | c1 :: c2 :: c3 :: c4 :: c5 :: rest =>
    if c1.toLower = 'l' ∧ c2.toLower = 'i' ∧ c3.toLower = 'n' ∧ c4.toLower = 'e' ∧ c5 = ' ' then
      match rest.takeWhile isAsciiDigit, rest.dropWhile isAsciiDigit with
      | [], _ => s
      | _ :: _, ':' :: tail => tail
      | _ :: _, _ => s
    else s
  | _ => s

/-- The problem built in the `catch` block of `parse` (linter.ts):
`{ ruleId: null, fatal: true, severity: 2, message: "Parsing error: " +
stripped-and-trimmed message, line: ex.lineNumber, column: ex.column }`. -/
def parseErrorProblem (e : ParserError) : LintProblem :=
  { ruleId := none
    fatal := true
    severity := 2
    message := .parsingError (jsTrim (stripLeadingLineNo e.message))
    line := e.lineNumber
    column := e.column }

/-- Trace events recorded by the model of the rule-running phase. -/
inductive RuleEvent where
  | createCall (ruleId : List Char)
  | listenerRegistered (ruleId : List Char) (selector : List Char)
deriving DecidableEq

/-- The parse step of `_verifyWithoutProcessors` (linter.ts): on parse
failure the function returns `[parseResult.error]` immediately, so the rule
run — represented by the thunk `rest`, which produces the problems and rule
events of a successful lint — never happens. -/
def verifyParseStep (parseOutcome : Except ParserError Unit)
    (rest : Unit → List LintProblem × List RuleEvent) :
    List LintProblem × List RuleEvent :=
  match parseOutcome with
  | .error e => ([parseErrorProblem e], [])
  | .ok _ => rest ()

/- ## Linter: the per-rule loop of runRules (linter.ts) -/

/-- The JavaScript value returned by a rule's `create`: `undefined`, `null`,
an object (listed by its enumerable own property names, the selectors), a
function, or another primitive such as a number. -/
inductive CreateReturn where
  | undef
  | nullv
  | obj (selectors : List (List Char))
  | fn
  | num (n : Int)
deriving DecidableEq

/-- Model of `Object.keys` on the value returned by `create`: the selectors of an
object; empty for a function (no enumerable own properties) and for
non-null primitives (ES2015 coercion). -/
def objectKeys : CreateReturn → List (List Char)
  | .obj selectors => selectors
  | _ => []

/-- A rule as the runner consumes it: `create` is represented by the value
it returns. -/
structure RuleDef where
  createReturns : CreateReturn
deriving DecidableEq

/-- Model of `createMissingRuleMessage` (linter.ts): when the rule id is in the
replacement table the message names the replacements, otherwise it is the
definition-not-found message. -/
def createMissingRuleMessage (repl : List Char → Option (List (List Char)))
    (ruleId : List Char) : MessageV :=
  match repl ruleId with
  | some rs => .ruleRemoved ruleId rs
  | none => .ruleNotFound ruleId

/-- Model of `DEFAULT_ERROR_LOC` (linter.ts): start `(1, 0)`, end `(1, 1)` with
0-based columns. -/
structure SourceLoc where
  startLine : Int
  startColumn : Int
  endLine : Int
  endColumn : Int
deriving DecidableEq

/-- Model of `DEFAULT_ERROR_LOC` (linter.ts). -/
def DEFAULT_ERROR_LOC : SourceLoc := ⟨1, 0, 1, 1⟩

/-- Model of `createLintingProblem` (linter.ts) called with only a `ruleId`, as in the
unknown-rule branch of `runRules`: loc defaults to `DEFAULT_ERROR_LOC`,
severity to 2, the message to `createMissingRuleMessage`; the emitted
message columns are the 0-based loc columns plus one, and no `fatal`
property is set. -/
def createLintingProblem (repl : List Char → Option (List (List Char)))
    (ruleId : List Char) : LintProblem :=
  { ruleId := some ruleId
    message := createMissingRuleMessage repl ruleId
    line := some DEFAULT_ERROR_LOC.startLine
    column := some (DEFAULT_ERROR_LOC.startColumn + 1)
    endLine := some DEFAULT_ERROR_LOC.endLine
    endColumn := some (DEFAULT_ERROR_LOC.endColumn + 1)
    severity := 2 }

/-- The per-rule loop of `runRules` (linter.ts): rules with severity 0 are
skipped; an unknown rule id pushes `createLintingProblem({ ruleId })` onto
the linting problems and moves on; for a found rule, `create` is invoked
once through `createRuleListeners` (recorded as a `createCall` event) and a
return of `undefined` or `null` throws (`Except.error ruleId`), otherwise
every `Object.keys` selector is registered on the emitter. -/
def runRulesLoop (repl : List Char → Option (List (List Char)))
    (ruleMapper : List Char → Option RuleDef) :
    List (List Char × Nat) → Except (List Char) (List LintProblem × List RuleEvent)
  | [] => .ok ([], [])
  | (ruleId, severity) :: restRules =>
    if severity = 0 then runRulesLoop repl ruleMapper restRules
    else
      match ruleMapper ruleId with
      | none =>
        match runRulesLoop repl ruleMapper restRules with
        | .ok (probs, evs) => .ok (createLintingProblem repl ruleId :: probs, evs)
        | .error err => .error err
      | some rule =>
        if rule.createReturns = .undef ∨ rule.createReturns = .nullv then .error ruleId
        else
          match runRulesLoop repl ruleMapper restRules with
          | .ok (probs, evs) =>
            .ok (probs,
              (RuleEvent.createCall ruleId ::
                (objectKeys rule.createReturns).map (RuleEvent.listenerRegistered ruleId)) ++ evs)
          | .error err => .error err

/- ## Source code: position index (source-code.ts) -/

/-- Modelled from the spec: `createGlobalLinebreakMatcher` (ast-utils, not in
the source tree); the spec says the line table is built by scanning for CR,
LF, CRLF, U+2028, U+2029. -/
def isLineBreakChar (c : Char) : Bool :=
  c = '\r' || c = '\n' || c = Char.ofNat 0x2028 || c = Char.ofNat 0x2029

/-- The `SourceCode` constructor's scan loop filling `lineStartIndices` and
`lines` together: each linebreak match (CRLF is one match of length 2) pushes
`match.index + match[0].length` onto the starts and the text since the
previous start onto the lines; after the loop the remaining text is pushed as
the final line.  `i` is the absolute index of the head of the remaining
text, `acc` the current line so far. -/
def lineScanAux : List Char → Nat → List Char → List Nat × List (List Char)
  | [], _, acc => ([], [acc])
  | '\r' :: '\n' :: restT, i, acc =>
    let (ss, ls) := lineScanAux restT (i + 2) []
    ((i + 2) :: ss, acc :: ls)
  | c :: restT, i, acc =>
    if isLineBreakChar c then
      let (ss, ls) := lineScanAux restT (i + 1) []
      ((i + 1) :: ss, acc :: ls)
    else lineScanAux restT (i + 1) (acc ++ [c])

/-- Model of `this.lineStartIndices` (source-code.ts), starting `[0]`. -/
def lineStartIndices (t : List Char) : List Nat :=
  0 :: (lineScanAux t 0 []).1

/-- Model of `this.lines` (source-code.ts). -/
def linesOf (t : List Char) : List (List Char) :=
  (lineScanAux t 0 []).2

/-- A `{ line, column }` location: 1-based line, 0-based column.  The fields
are `Int` because `getIndexFromLoc` does unchecked arithmetic on the
column. -/
structure LocLC where
  line : Int
  column : Int
deriving DecidableEq

/-- The `lineNumber` computation inside `getLocFromIndex` (source-code.ts):
`index >= lineStartIndices[len - 1] ? len : lineStartIndices.findIndex(el =>
index < el)`. -/
def lineNumberOf (t : List Char) (index : Nat) : Nat :=
  if (lineStartIndices t).getLastD 0 ≤ index then (lineStartIndices t).length
  else (lineStartIndices t).findIdx (fun el => decide (index < el))

/-- Model of `SourceCode.getLocFromIndex` (source-code.ts); `none` models the thrown
`RangeError`.  The index is a `Nat` offset (the code's negative-index check
cannot fire on the claim's domain `0 ≤ k ≤ len`).  The constructor's local
constants are inlined. -/
def getLocFromIndex (t : List Char) (index : Nat) : Option LocLC :=
  if index > t.length then none
  else if index = t.length then
    some ⟨(linesOf t).length, ((linesOf t).getLastD []).length⟩
  else
    some ⟨lineNumberOf t index,
      (index : Int) - ((lineStartIndices t).getD (lineNumberOf t index - 1) 0 : Int)⟩

/-- Model of `SourceCode.getIndexFromLoc` (source-code.ts); `none` models the thrown
`RangeError`s.  Note the code has no lower-bound check on `loc.column`.  The
local constants `lineStartIndex`, `lineEndIndex` and `positionIndex` are
inlined; in the range check each disjunct pins `loc.line`, so `lineEndIndex`
is replaced by its value in that case. -/
def getIndexFromLoc (t : List Char) (loc : LocLC) : Option Int :=
  if loc.line ≤ 0 then none
  else if loc.line > ((lineStartIndices t).length : Int) then none
  else
    if (loc.line = ((lineStartIndices t).length : Int) ∧
          ((lineStartIndices t).getD (loc.line.toNat - 1) 0 : Int) + loc.column >
            (t.length : Int)) ∨
        (loc.line < ((lineStartIndices t).length : Int) ∧
          ((lineStartIndices t).getD (loc.line.toNat - 1) 0 : Int) + loc.column ≥
            ((lineStartIndices t).getD loc.line.toNat 0 : Int)) then none
    else some (((lineStartIndices t).getD (loc.line.toNat - 1) 0 : Int) + loc.column)

theorem filterCursorStream_eq_filter (p : α → Bool) (xs : List α) :
    filterCursorStream p xs = xs.filter p := by
  induction xs with
  | nil => rfl
  | cons x xs ih =>
    by_cases h : p x <;> simp [filterCursorStream, List.filter, h, ih]

theorem skipCursorStream_eq_drop (n : Nat) (xs : List α) :
    skipCursorStream n xs = xs.drop n := by
  induction n generalizing xs with
  | zero => cases xs <;> rfl
  | succ n ih => cases xs <;> simp [skipCursorStream, ih]

theorem limitCursorStream_eq_take (n : Nat) (xs : List α) :
    limitCursorStream n xs = xs.take n := by
  induction n generalizing xs with
  | zero => cases xs <;> rfl
  | succ n ih => cases xs <;> simp [limitCursorStream, ih]

theorem sortedMerge_mem {x : TokT} :
    ∀ ts cs : List TokT, x ∈ sortedMerge ts cs ↔ x ∈ ts ∨ x ∈ cs := by
  intro ts cs
  induction ts, cs using sortedMerge.induct with
  | case1 => simp [sortedMerge]
  | case2 t ts ih => simp [sortedMerge, ih]
  | case3 c cs ih => simp [sortedMerge, ih]
  | case4 t ts c cs hlt ih =>
    simp [sortedMerge, hlt, ih]; tauto
  | case5 t ts c cs hlt ih =>
    simp [sortedMerge, hlt, ih]; tauto

theorem distinguishSuppressedMessages_eq_filter (ps : List LintProblem) :
    distinguishSuppressedMessages ps =
      (ps.filter (fun p => p.suppressions.isNone),
        ps.filter (fun p => p.suppressions.isSome)) := by
  induction ps with
  | nil => rfl
  | cons p rest ih =>
    cases h : p.suppressions <;>
      simp [distinguishSuppressedMessages, ih, List.filter_cons, h]

theorem sortedMerge_pairwise (ts cs : List TokT)
    (ht : ts.Pairwise (fun a b => a.rangeStart < b.rangeStart))
    (hc : cs.Pairwise (fun a b => a.rangeStart < b.rangeStart))
    (hne : ∀ t ∈ ts, ∀ c ∈ cs, t.rangeStart ≠ c.rangeStart) :
    (sortedMerge ts cs).Pairwise (fun a b => a.rangeStart < b.rangeStart) := by
  induction ts, cs using sortedMerge.induct with
  | case1 => simp [sortedMerge]
  | case2 t ts ih =>
    rw [sortedMerge]
    rcases List.pairwise_cons.mp ht with ⟨hlt, ht'⟩
    refine List.pairwise_cons.mpr ⟨?_, ih ht' hc (by simp)⟩
    intro x hx
    rcases (sortedMerge_mem ts []).mp hx with h | h
    · exact hlt x h
    · simp at h
  | case3 c cs ih =>
    rw [sortedMerge]
    rcases List.pairwise_cons.mp hc with ⟨hlt, hc'⟩
    refine List.pairwise_cons.mpr ⟨?_, ih (by simp) hc' (by simp)⟩
    intro x hx
    rcases (sortedMerge_mem [] cs).mp hx with h | h
    · simp at h
    · exact hlt x h
  | case4 t ts c cs hlt ih =>
    rw [sortedMerge, if_pos hlt]
    rcases List.pairwise_cons.mp ht with ⟨htlt, ht'⟩
    rcases List.pairwise_cons.mp hc with ⟨hclt, hc'⟩
    refine List.pairwise_cons.mpr ⟨?_, ?_⟩
    · intro x hx
      rcases (sortedMerge_mem ts (c :: cs)).mp hx with h | h
      · exact htlt x h
      · rcases List.mem_cons.mp h with rfl | h
        · exact hlt
        · exact lt_trans hlt (hclt x h)
    · exact ih ht' hc fun a ha b hb => hne a (List.mem_cons_of_mem t ha) b hb
  | case5 t ts c cs hge ih =>
    rw [sortedMerge, if_neg hge]
    rcases List.pairwise_cons.mp hc with ⟨hclt, hc'⟩
    have hcs : c.rangeStart < t.rangeStart := by
      have h1 : ¬t.rangeStart < c.rangeStart := hge
      have h2 : t.rangeStart ≠ c.rangeStart :=
        hne t (List.mem_cons_self t ts) c (List.mem_cons_self c cs)
      omega
    refine List.pairwise_cons.mpr ⟨?_, ?_⟩
    · intro x hx
      rcases (sortedMerge_mem (t :: ts) cs).mp hx with h | h
      · rcases List.mem_cons.mp h with rfl | h
        · exact hcs
        · exact lt_trans hcs (List.rel_of_pairwise_cons ht h)
      · exact hclt x h
    · exact ih ht hc' fun a ha b hb => hne a ha b (List.mem_cons_of_mem c hb)

/-- C6: under the precondition that the token array and the comment array are
each sorted by `range.start` (strictly, as tokens and comments are pairwise
disjoint), ranges are well formed (`start <= end`), and no token overlaps a
comment in the sense of `nodesOrTokensOverlap`, the merged
`tokensAndComments` stream built by `sortedMerge` at `SourceCode`
construction is strictly monotonically increasing in `range.start`. -/
theorem merged_stream_strict_mono (tokens comments : List TokT)
    (ht : tokens.Pairwise (fun a b => a.rangeStart < b.rangeStart))
    (hc : comments.Pairwise (fun a b => a.rangeStart < b.rangeStart))
    (hwt : ∀ t ∈ tokens, t.rangeStart ≤ t.rangeEnd)
    (hwc : ∀ c ∈ comments, c.rangeStart ≤ c.rangeEnd)
    (hno : ∀ t ∈ tokens, ∀ c ∈ comments, nodesOrTokensOverlap t c = false) :
    (sortedMerge tokens comments).Pairwise (fun a b => a.rangeStart < b.rangeStart) := by
  refine sortedMerge_pairwise tokens comments ht hc ?_
  intro t htm c hcm heq
  have := hno t htm c hcm
  simp [nodesOrTokensOverlap, heq] at this
  exact absurd (hwt t htm) (by omega)

/-- C6 witness: the theorem applied to a concrete token and comment pair. -/
theorem merged_stream_strict_mono_witness :
    ([⟨0, 1⟩, ⟨4, 5⟩] : List TokT).Pairwise (fun a b => a.rangeStart < b.rangeStart) ∧
      (sortedMerge [⟨0, 1⟩, ⟨4, 5⟩] [⟨2, 3⟩]).Pairwise
        (fun a b => a.rangeStart < b.rangeStart) :=
  ⟨by decide,
    merged_stream_strict_mono [⟨0, 1⟩, ⟨4, 5⟩] [⟨2, 3⟩] (by decide) (by decide) (by decide)
      (by decide) (by decide)⟩

/-- C5: every token-store query composes its cursor in the fixed order base →
Filter → Skip → Limit; the yielded items are exactly the base items satisfying
the predicate, with the first `skip` discarded and truncated to at most
`count`; when `count < 0` no Limit decorator is applied and all remaining
matching items are yielded. -/
theorem cursor_query_composition (items : List α) (p : α → Bool) (skip count : Int) :
    createCursor items (some p) skip count =
      if 0 ≤ count then ((items.filter p).drop skip.toNat).take count.toNat
      else (items.filter p).drop skip.toNat := by
  unfold createCursor
  simp only [filterCursorStream_eq_filter]
  by_cases hs : 1 ≤ skip
  · by_cases hc0 : 0 ≤ count <;>
      simp [hs, hc0, skipCursorStream_eq_drop, limitCursorStream_eq_take]
  · have h0 : skip.toNat = 0 := Int.toNat_of_nonpos (by omega)
    by_cases hc0 : 0 ≤ count <;>
      simp [hs, hc0, h0, skipCursorStream_eq_drop, limitCursorStream_eq_take]

/-- C10: `verify` returns exactly the problems without a `suppressions`
property in their original relative order, and `getSuppressedMessages`
subsequently returns exactly the problems with a `suppressions` property. -/
theorem verify_suppressed_split (ps : List LintProblem) :
    (verifyReturn ps).1 = ps.filter (fun p => p.suppressions.isNone) ∧
      getSuppressedMessages (verifyReturn ps).2 =
        ps.filter (fun p => p.suppressions.isSome) := by
  simp [verifyReturn, getSuppressedMessages, distinguishSuppressedMessages_eq_filter]

/-- C8 counterexample: on the comment text `foo --- bar` the source splits at
the three-dash separator (`/\s-{2,}\s/u`), producing directive `foo` and
justification `bar`, while the claim's `\s--\s` pattern does not match at all
and so predicts directive `foo --- bar` with an empty justification. -/
theorem extract_directive_counterexample :
    extractDirectiveComment ['f', 'o', 'o', ' ', '-', '-', '-', ' ', 'b', 'a', 'r'] =
        ⟨['f', 'o', 'o'], ['b', 'a', 'r']⟩ ∧
      extractDirectiveCommentClaim ['f', 'o', 'o', ' ', '-', '-', '-', ' ', 'b', 'a', 'r'] =
        ⟨['f', 'o', 'o', ' ', '-', '-', '-', ' ', 'b', 'a', 'r'], []⟩ := by
  constructor <;> decide

theorem findJustifSep_eq_findSome (v : List Char) :
    ∀ i0, findJustifSep v i0 =
      (List.range (v.length + 1)).findSome?
        (fun i => (sepMatchLen (v.drop i)).map (fun len => (i + i0, len))) := by
  induction v with
  | nil =>
    intro i0
    simp [findJustifSep, sepMatchLen, List.range_succ_eq_map]
  | cons c rest ih =>
    intro i0
    rw [List.length_cons, List.range_succ_eq_map, List.findSome?_cons]
    by_cases hws : isJsWhitespace c
    · by_cases hcond : 2 ≤ dashRunLen rest ∧ headIsWS (rest.drop (dashRunLen rest))
      · simp [findJustifSep, hws, hcond, sepMatchLen]
      · have hnone : sepMatchLen (c :: rest) = none := by
          simp [sepMatchLen, hws, hcond]
        rw [findJustifSep, if_pos (by simpa using hws), if_neg hcond, ih (i0 + 1)]
        simp only [List.drop_zero, hnone, Option.map_none, List.findSome?_map]
        congr 1
        funext i
        simp only [Function.comp]
        rw [List.drop_succ_cons]
        congr 1
        funext len
        congr 1
        omega
    · have hnone : sepMatchLen (c :: rest) = none := by
        simp [sepMatchLen, hws]
      rw [findJustifSep, if_neg (by simpa using hws), ih (i0 + 1)]
      simp only [List.drop_zero, hnone, Option.map_none, List.findSome?_map]
      congr 1
      funext i
      simp only [Function.comp]
      rw [List.drop_succ_cons]
      congr 1
      funext len
      congr 1
      omega

/-- C8 (amended): the justification separator accepts two **or more** dashes:
`extractDirectiveComment` splits the comment at the leftmost occurrence of
`\s-{2,}\s`, trimming both parts, and returns the whole trimmed value with an
empty justification when no such separator occurs. -/
theorem extract_directive_amended (value : List Char) :
    extractDirectiveComment value = extractDirectiveCommentSpec value := by
  unfold extractDirectiveComment extractDirectiveCommentSpec
  rw [findJustifSep_eq_findSome value 0]
  simp only [Nat.add_zero]

theorem isSingleFatal_iff (ms : List LintProblem) :
    isSingleFatal ms = true ↔ ∃ m, ms = [m] ∧ m.fatal = true := by
  cases ms with
  | nil => simp [isSingleFatal]
  | cons m rest =>
    cases rest with
    | nil => simp [isSingleFatal]
    | cons b l => simp [isSingleFatal]

theorem applyFixes_no_fix (text : List Char) (ms : List LintProblem)
    (sf : LintProblem → Bool) (h : ∀ m ∈ ms, m.fix = none) :
    applyFixes text ms sf = ⟨false, ms, text⟩ := by
  unfold applyFixes
  have h1 : ms.filter (fun m => m.fix.isSome && sf m) = [] := by
    rw [List.filter_eq_nil_iff]
    intro m hm
    simp [h m hm]
  have h2 : ms.filter (fun m => !(m.fix.isSome && sf m)) = ms := by
    rw [List.filter_eq_self]
    intro m hm
    simp [h m hm]
  simp only [h1, h2, sortByFixKey, selectFixes, spliceFixes]
  simp

theorem vafLoop_spec (verify : List Char → List LintProblem) (shouldFix : LintProblem → Bool)
    (hnf : ∀ t, ∀ m ∈ verify t, m.fatal = true → m.fix = none) :
    ∀ (fuel passNumber : Nat) (text : List Char) (fixed0 : Bool)
      (r : FixResult) (t : List Char) (f : Bool) (tr : List PassRec),
      fuel + passNumber = MAX_AUTOFIX_PASSES →
      passNumber < MAX_AUTOFIX_PASSES →
      verifyAndFixLoop verify shouldFix fuel passNumber text fixed0 = (r, t, f, tr) →
      tr.length ≤ fuel ∧ tr ≠ [] ∧
        (∀ e ∈ tr.dropLast, e.result.fixed = true ∧ isSingleFatal e.messages = false) ∧
        f = (fixed0 || tr.any fun e => e.result.fixed) ∧
        (∀ e, tr.getLast? = some e →
          r = e.result ∧
          (isSingleFatal e.messages = true →
            t = e.textBefore ∧ r = ⟨false, e.messages, e.textBefore⟩) ∧
          (isSingleFatal e.messages = false →
            t = e.result.output ∧ (e.result.fixed = true → tr.length = fuel))) := by
  intro fuel
  induction fuel with
  | zero =>
    intro passNumber text fixed0 r t f tr hinv hp _
    exact absurd hinv (by omega)
  | succ fuel' ih =>
    intro passNumber text fixed0 r t f tr hinv hp hEq
    rw [verifyAndFixLoop] at hEq
    by_cases hfat : isSingleFatal (verify text) = true
    · rw [if_pos hfat] at hEq
      simp only [Prod.mk.injEq] at hEq
      obtain ⟨hr, ht, hf, htr⟩ := hEq
      obtain ⟨m, hm, hmf⟩ := (isSingleFatal_iff (verify text)).mp hfat
      have hnofix : ∀ x ∈ verify text, x.fix = none := by
        intro x hx
        rw [hm] at hx
        simp at hx
        subst hx
        exact hnf text x (by rw [hm]; simp) hmf
      have happ : applyFixes text (verify text) shouldFix = ⟨false, verify text, text⟩ :=
        applyFixes_no_fix text (verify text) shouldFix hnofix
      subst hr ht hf
      subst htr
      refine ⟨by simp, by simp, by simp, by simp [happ], ?_⟩
      intro e he
      simp at he
      subst he
      refine ⟨rfl, fun _ => ⟨rfl, by simp [happ]⟩, fun hc => absurd hfat (by simp [hc])⟩
    · rw [if_neg hfat] at hEq
      by_cases hcont : (applyFixes text (verify text) shouldFix).fixed = true ∧
          passNumber + 1 < MAX_AUTOFIX_PASSES
      · rw [if_pos hcont] at hEq
        simp only [Prod.mk.injEq] at hEq
        obtain ⟨hr, ht, hf, htr⟩ := hEq
        have hrec := ih (passNumber + 1)
          (applyFixes text (verify text) shouldFix).output
          (fixed0 || (applyFixes text (verify text) shouldFix).fixed)
          _ _ _ _ (by omega) hcont.2 rfl
        obtain ⟨hl, hne, hpre, hfl, hlast⟩ := hrec
        subst hr ht hf
        subst htr
        refine ⟨by simpa using Nat.succ_le_succ hl, by simp, ?_, ?_, ?_⟩
        · intro e he
          rw [List.dropLast_cons_of_ne_nil hne] at he
          rcases List.mem_cons.mp he with rfl | he'
          · exact ⟨hcont.1, by simpa using hfat⟩
          · exact hpre e he'
        · rw [hfl]
          simp [Bool.or_assoc]
        · intro e he
          obtain ⟨x, l, htr'⟩ : ∃ x l,
              (verifyAndFixLoop verify shouldFix fuel' (passNumber + 1)
                (applyFixes text (verify text) shouldFix).output
                (fixed0 || (applyFixes text (verify text) shouldFix).fixed)).2.2.2 = x :: l := by
            cases hx : (verifyAndFixLoop verify shouldFix fuel' (passNumber + 1)
                (applyFixes text (verify text) shouldFix).output
                (fixed0 || (applyFixes text (verify text) shouldFix).fixed)).2.2.2 with
            | nil => exact absurd hx hne
            | cons x l => exact ⟨x, l, rfl⟩
          rw [htr', List.getLast?_cons_cons] at he
          have hthis := hlast e (by rw [htr']; exact he)
          refine ⟨hthis.1, hthis.2.1, fun hnf2 => ?_⟩
          refine ⟨(hthis.2.2 hnf2).1, fun hfix => ?_⟩
          have hlen := (hthis.2.2 hnf2).2 hfix
          rw [htr'] at hlen
          rw [htr']
          simp only [List.length_cons] at hlen ⊢
          omega
      · rw [if_neg hcont] at hEq
        simp only [Prod.mk.injEq] at hEq
        obtain ⟨hr, ht, hf, htr⟩ := hEq
        subst hr ht hf
        subst htr
        refine ⟨by simp, by simp, by simp, by simp, ?_⟩
        intro e he
        simp at he
        subst he
        refine ⟨rfl, fun hc => absurd hc (by simp [hfat]), fun _ => ⟨rfl, ?_⟩⟩
        intro hfix
        simp only [List.length_cons, List.length_nil]
        have hstop : ¬passNumber + 1 < MAX_AUTOFIX_PASSES := fun hlt => hcont ⟨hfix, hlt⟩
        omega

/-- C2: the `verifyAndFix` driver runs at most 10 lint-and-fix passes and
stops as soon as a pass applies no fix (every non-final pass applied a fix
and was not fatal); when the last executed pass applied a fix, one additional
verify of the final text supplies the returned messages; when a pass yields a
single fatal parse problem the loop aborts and the result carries that fatal
message together with the latest text. -/
theorem verifyAndFix_driver (verify : List Char → List LintProblem)
    (shouldFix : LintProblem → Bool) (text : List Char)
    (hnf : ∀ t, ∀ m ∈ verify t, m.fatal = true → m.fix = none) :
    (verifyAndFixTrace verify shouldFix text).length ≤ MAX_AUTOFIX_PASSES ∧
      verifyAndFixTrace verify shouldFix text ≠ [] ∧
      (∀ e ∈ (verifyAndFixTrace verify shouldFix text).dropLast,
        e.result.fixed = true ∧ isSingleFatal e.messages = false) ∧
      (∀ e, (verifyAndFixTrace verify shouldFix text).getLast? = some e →
        (isSingleFatal e.messages = false → e.result.fixed = true →
          (verifyAndFix verify shouldFix text).messages = verify e.result.output ∧
            (verifyAndFix verify shouldFix text).output = e.result.output) ∧
        (isSingleFatal e.messages = false → e.result.fixed = false →
          (verifyAndFix verify shouldFix text).messages = e.result.messages ∧
            (verifyAndFix verify shouldFix text).output = e.result.output) ∧
        (isSingleFatal e.messages = true →
          (verifyAndFix verify shouldFix text).messages = e.messages ∧
            (verifyAndFix verify shouldFix text).output = e.textBefore)) := by
  obtain ⟨hl, hne, hpre, hfl, hlast⟩ := vafLoop_spec verify shouldFix hnf
    MAX_AUTOFIX_PASSES 0 text false
    (verifyAndFixLoop verify shouldFix MAX_AUTOFIX_PASSES 0 text false).1
    (verifyAndFixLoop verify shouldFix MAX_AUTOFIX_PASSES 0 text false).2.1
    (verifyAndFixLoop verify shouldFix MAX_AUTOFIX_PASSES 0 text false).2.2.1
    (verifyAndFixLoop verify shouldFix MAX_AUTOFIX_PASSES 0 text false).2.2.2
    (by omega) (by norm_num [MAX_AUTOFIX_PASSES]) rfl
  refine ⟨hl, hne, hpre, ?_⟩
  intro e he
  have hthis := hlast e he
  have hmsg : (verifyAndFix verify shouldFix text).messages =
      (if (verifyAndFixLoop verify shouldFix MAX_AUTOFIX_PASSES 0 text false).1.fixed = true
        then verify (verifyAndFixLoop verify shouldFix MAX_AUTOFIX_PASSES 0 text false).2.1
        else (verifyAndFixLoop verify shouldFix MAX_AUTOFIX_PASSES 0 text false).1.messages) := by
    simp only [verifyAndFix]
    split <;> rfl
  have hout : (verifyAndFix verify shouldFix text).output =
      (verifyAndFixLoop verify shouldFix MAX_AUTOFIX_PASSES 0 text false).2.1 := by
    simp only [verifyAndFix]
  refine ⟨fun hnf2 hfix => ?_, fun hnf2 hfix => ?_, fun hfat => ?_⟩
  · rw [hmsg, hout, hthis.1, hfix, if_pos rfl]
    exact ⟨by rw [(hthis.2.2 hnf2).1], (hthis.2.2 hnf2).1⟩
  · rw [hmsg, hout, hthis.1, hfix]
    simp only [Bool.false_eq_true, if_false]
    exact ⟨trivial, (hthis.2.2 hnf2).1⟩
  · have he2 : e.result = ⟨false, e.messages, e.textBefore⟩ :=
      (hthis.1).symm.trans ((hthis.2.1 hfat).2)
    rw [hmsg, hout, hthis.1, he2]
    simp only [Bool.false_eq_true, if_false]
    exact ⟨trivial, (hthis.2.1 hfat).1⟩

/-- C2 witness: the driver theorem applied to a verifier that reports
nothing, on the empty text. -/
theorem verifyAndFix_driver_witness :
    (∀ t : List Char, ∀ m ∈ (fun (_ : List Char) => ([] : List LintProblem)) t,
        m.fatal = true → m.fix = none) ∧
      ((verifyAndFixTrace (fun _ => []) (fun _ => true) []).length ≤ MAX_AUTOFIX_PASSES ∧
        verifyAndFixTrace (fun _ => []) (fun _ => true) [] ≠ [] ∧
        (∀ e ∈ (verifyAndFixTrace (fun _ => []) (fun _ => true) []).dropLast,
          e.result.fixed = true ∧ isSingleFatal e.messages = false) ∧
        (∀ e, (verifyAndFixTrace (fun _ => []) (fun _ => true) []).getLast? = some e →
          (isSingleFatal e.messages = false → e.result.fixed = true →
            (verifyAndFix (fun _ => []) (fun _ => true) []).messages = [] ∧
              (verifyAndFix (fun _ => []) (fun _ => true) []).output = e.result.output) ∧
          (isSingleFatal e.messages = false → e.result.fixed = false →
            (verifyAndFix (fun _ => []) (fun _ => true) []).messages = e.result.messages ∧
              (verifyAndFix (fun _ => []) (fun _ => true) []).output = e.result.output) ∧
          (isSingleFatal e.messages = true →
            (verifyAndFix (fun _ => []) (fun _ => true) []).messages = e.messages ∧
              (verifyAndFix (fun _ => []) (fun _ => true) []).output = e.textBefore))) :=
  ⟨by intro t m hm; simp at hm,
    verifyAndFix_driver (fun _ => []) (fun _ => true) [] (by intro t m hm; simp at hm)⟩

/-- C3 counterexample: with a verifier that keeps reporting the identity fix
on the text `a`, every pass applies a fix, so the returned `fixed` flag is
`true` although the returned `output` equals the input text — refuting
`fixed = true ↔ output ≠ input`. -/
theorem fixed_flag_counterexample :
    ¬(((verifyAndFix (fun _ => [identityFixProblem]) (fun _ => true) ['a']).fixed = true) ↔
        (verifyAndFix (fun _ => [identityFixProblem]) (fun _ => true) ['a']).output ≠ ['a']) := by
  decide

/-- C3 (amended): the `fixed` flag returned by `verifyAndFix` is true iff at
least one pass applied at least one fix; this need not coincide with the
output differing from the input (a fix may substitute identical text). -/
theorem fixed_flag_amended (verify : List Char → List LintProblem)
    (shouldFix : LintProblem → Bool) (text : List Char)
    (hnf : ∀ t, ∀ m ∈ verify t, m.fatal = true → m.fix = none) :
    (verifyAndFix verify shouldFix text).fixed =
      (verifyAndFixTrace verify shouldFix text).any (fun e => e.result.fixed) := by
  obtain ⟨_, _, _, hfl, _⟩ := vafLoop_spec verify shouldFix hnf
    MAX_AUTOFIX_PASSES 0 text false
    (verifyAndFixLoop verify shouldFix MAX_AUTOFIX_PASSES 0 text false).1
    (verifyAndFixLoop verify shouldFix MAX_AUTOFIX_PASSES 0 text false).2.1
    (verifyAndFixLoop verify shouldFix MAX_AUTOFIX_PASSES 0 text false).2.2.1
    (verifyAndFixLoop verify shouldFix MAX_AUTOFIX_PASSES 0 text false).2.2.2
    (by omega) (by norm_num [MAX_AUTOFIX_PASSES]) rfl
  have hfixede : (verifyAndFix verify shouldFix text).fixed =
      (verifyAndFixLoop verify shouldFix MAX_AUTOFIX_PASSES 0 text false).2.2.1 := by
    simp only [verifyAndFix]
  rw [hfixede, hfl, verifyAndFixTrace]
  simp

/-- C3 amended witness: the theorem applied to a verifier that reports
nothing, on a one-character text. -/
theorem fixed_flag_amended_witness :
    (∀ t : List Char, ∀ m ∈ (fun (_ : List Char) => ([] : List LintProblem)) t,
        m.fatal = true → m.fix = none) ∧
      (verifyAndFix (fun _ => []) (fun _ => true) ['a']).fixed =
        (verifyAndFixTrace (fun _ => []) (fun _ => true) ['a']).any
          (fun e => e.result.fixed) :=
  ⟨by intro t m hm; simp at hm,
    fixed_flag_amended (fun _ => []) (fun _ => true) ['a'] (by intro t m hm; simp at hm)⟩

/-- C4: when parsing fails, `verify` returns exactly one problem, with
`fatal = true`, severity 2, `ruleId = null`, the parser-provided line and
column (absent when the parser gave none), and no rule listeners run —
the result does not depend on the rule-running thunk. -/
theorem parse_failure_single_fatal (e : ParserError)
    (rest : Unit → List LintProblem × List RuleEvent) :
    verifyParseStep (.error e) rest = ([parseErrorProblem e], []) ∧
      (parseErrorProblem e).fatal = true ∧
      (parseErrorProblem e).severity = 2 ∧
      (parseErrorProblem e).ruleId = none ∧
      (parseErrorProblem e).line = e.lineNumber ∧
      (parseErrorProblem e).column = e.column := by
  simp [verifyParseStep, parseErrorProblem]

theorem runRulesLoop_ok_spec (repl : List Char → Option (List (List Char)))
    (ruleMapper : List Char → Option RuleDef) :
    ∀ (conf : List (List Char × Nat)) (probs : List LintProblem) (evs : List RuleEvent),
      runRulesLoop repl ruleMapper conf = .ok (probs, evs) →
      probs = conf.filterMap (fun rc =>
          if rc.2 ≠ 0 ∧ ruleMapper rc.1 = none then some (createLintingProblem repl rc.1)
          else none) ∧
        (∀ ruleId, ruleMapper ruleId = none → RuleEvent.createCall ruleId ∉ evs) ∧
        (∀ ruleId, RuleEvent.createCall ruleId ∈ evs →
          ∃ sev rule, (ruleId, sev) ∈ conf ∧ sev ≠ 0 ∧ ruleMapper ruleId = some rule) := by
  intro conf
  induction conf with
  | nil =>
    intro probs evs hok
    simp only [runRulesLoop] at hok
    obtain ⟨h1, h2⟩ := (by simpa using hok : probs = [] ∧ evs = [])
    subst h1 h2
    simp
  | cons rc rest ih =>
    intro probs evs hok
    obtain ⟨ruleId, severity⟩ := rc
    rw [runRulesLoop] at hok
    by_cases hsev : severity = 0
    · rw [if_pos hsev] at hok
      obtain ⟨hp, he, hm⟩ := ih probs evs hok
      refine ⟨?_, he, ?_⟩
      · simpa [List.filterMap_cons, hsev] using hp
      · intro rid hin
        obtain ⟨sev, rule, hmem, hs, hr⟩ := hm rid hin
        exact ⟨sev, rule, List.mem_cons_of_mem _ hmem, hs, hr⟩
    · rw [if_neg hsev] at hok
      cases hmap : ruleMapper ruleId with
      | none =>
        rw [hmap] at hok
        cases hrec : runRulesLoop repl ruleMapper rest with
        | error err => rw [hrec] at hok; simp at hok
        | ok pe =>
          obtain ⟨p', e'⟩ := pe
          rw [hrec] at hok
          simp only [Except.ok.injEq, Prod.mk.injEq] at hok
          obtain ⟨hp, he⟩ := hok
          subst hp he
          obtain ⟨hp', he', hm'⟩ := ih p' e' hrec
          refine ⟨?_, he', ?_⟩
          · simp [List.filterMap_cons, hsev, hmap, hp']
          · intro rid hin
            obtain ⟨sev, rule, hmem, hs, hr⟩ := hm' rid hin
            exact ⟨sev, rule, List.mem_cons_of_mem _ hmem, hs, hr⟩
      | some rule =>
        rw [hmap] at hok
        dsimp only at hok
        by_cases hcr : rule.createReturns = .undef ∨ rule.createReturns = .nullv
        · rw [if_pos hcr] at hok
          simp at hok
        · rw [if_neg hcr] at hok
          cases hrec : runRulesLoop repl ruleMapper rest with
          | error err => rw [hrec] at hok; simp at hok
          | ok pe =>
            obtain ⟨p', e'⟩ := pe
            rw [hrec] at hok
            simp only [Except.ok.injEq, Prod.mk.injEq] at hok
            obtain ⟨hp, he⟩ := hok
            subst hp he
            obtain ⟨hp', he', hm'⟩ := ih p' e' hrec
            refine ⟨?_, ?_, ?_⟩
            · simp [List.filterMap_cons, hsev, hmap, hp']
            · intro rid hnone
              simp only [List.cons_append, List.mem_cons, List.mem_append]
              push_neg
              refine ⟨?_, ?_, ?_⟩
              · intro hbad
                rw [RuleEvent.createCall.injEq] at hbad
                subst hbad
                rw [hmap] at hnone
                exact Option.noConfusion hnone
              · intro hbad
                obtain ⟨sel, _, hbad2⟩ := List.mem_map.mp hbad
                exact RuleEvent.noConfusion hbad2.symm
              · exact he' rid hnone
            · intro rid hin
              simp only [List.cons_append, List.mem_cons, List.mem_append] at hin
              rcases hin with hbad | hbad | hin'
              · rw [RuleEvent.createCall.injEq] at hbad
                subst hbad
                exact ⟨severity, rule, List.mem_cons_self _ _, hsev, hmap⟩
              · obtain ⟨sel, _, hbad2⟩ := List.mem_map.mp hbad
                exact absurd hbad2.symm (fun h => RuleEvent.noConfusion h)
              · obtain ⟨sev, rule', hmem, hs, hr⟩ := hm' rid hin'
                exact ⟨sev, rule', List.mem_cons_of_mem _ hmem, hs, hr⟩

/-- C7: every configured rule id that resolves to no rule yields a synthetic
severity-2, non-fatal problem built from `DEFAULT_ERROR_LOC` — line 1,
0-based column 0, emitted with 1-based column 1 — instead of a thrown error;
the rule is skipped (no `create` call happens for an unresolvable id); and
when the id is in the replacement table the problem's message names the
replacement rules. -/
theorem unknown_rule_skipped (repl : List Char → Option (List (List Char)))
    (ruleMapper : List Char → Option RuleDef) (conf : List (List Char × Nat))
    (probs : List LintProblem) (evs : List RuleEvent)
    (hok : runRulesLoop repl ruleMapper conf = .ok (probs, evs)) :
    probs = conf.filterMap (fun rc =>
        if rc.2 ≠ 0 ∧ ruleMapper rc.1 = none then some (createLintingProblem repl rc.1)
        else none) ∧
      (∀ ruleId, ruleMapper ruleId = none → RuleEvent.createCall ruleId ∉ evs) ∧
      ∀ ruleId, (createLintingProblem repl ruleId).severity = 2 ∧
        (createLintingProblem repl ruleId).fatal = false ∧
        (createLintingProblem repl ruleId).line = some 1 ∧
        (createLintingProblem repl ruleId).column = some 1 ∧
        ∀ rs, repl ruleId = some rs →
          (createLintingProblem repl ruleId).message = .ruleRemoved ruleId rs := by
  obtain ⟨hp, he, _⟩ := runRulesLoop_ok_spec repl ruleMapper conf probs evs hok
  refine ⟨hp, he, ?_⟩
  intro ruleId
  refine ⟨rfl, rfl, rfl, rfl, ?_⟩
  intro rs hrs
  simp [createLintingProblem, createMissingRuleMessage, hrs]

/-- C7 witness: the theorem applied to a configuration with one enabled but
unresolvable rule id. -/
theorem unknown_rule_skipped_witness :
    runRulesLoop (fun _ => none) (fun _ => none) [(['r'], 2)] =
        .ok ([createLintingProblem (fun _ => none) ['r']], []) ∧
      ([createLintingProblem (fun _ => none) ['r']] =
          ([(['r'], 2)] : List (List Char × Nat)).filterMap (fun rc =>
            if rc.2 ≠ 0 ∧ (fun (_ : List Char) => (none : Option RuleDef)) rc.1 = none
            then some (createLintingProblem (fun _ => none) rc.1) else none) ∧
        (∀ ruleId, (fun (_ : List Char) => (none : Option RuleDef)) ruleId = none →
          RuleEvent.createCall ruleId ∉ ([] : List RuleEvent)) ∧
        ∀ ruleId, (createLintingProblem (fun _ => none) ruleId).severity = 2 ∧
          (createLintingProblem (fun _ => none) ruleId).fatal = false ∧
          (createLintingProblem (fun _ => none) ruleId).line = some 1 ∧
          (createLintingProblem (fun _ => none) ruleId).column = some 1 ∧
          ∀ rs, (fun (_ : List Char) => (none : Option (List (List Char)))) ruleId = some rs →
            (createLintingProblem (fun _ => none) ruleId).message = .ruleRemoved ruleId rs) :=
  ⟨by rfl, unknown_rule_skipped (fun _ => none) (fun _ => none) [(['r'], 2)]
    [createLintingProblem (fun _ => none) ['r']] [] (by rfl)⟩

theorem runRulesLoop_ok_no_bad_create (repl : List Char → Option (List (List Char)))
    (ruleMapper : List Char → Option RuleDef) :
    ∀ (conf : List (List Char × Nat)) (probs : List LintProblem) (evs : List RuleEvent),
      runRulesLoop repl ruleMapper conf = .ok (probs, evs) →
      ∀ ruleId sev rule, (ruleId, sev) ∈ conf → sev ≠ 0 → ruleMapper ruleId = some rule →
        ¬(rule.createReturns = .undef ∨ rule.createReturns = .nullv) := by
  intro conf
  induction conf with
  | nil =>
    intro probs evs _ rid sev rule hmem
    simp at hmem
  | cons rc rest ih =>
    intro probs evs hok rid sev rule hmem hsevne hrule
    obtain ⟨ruleId, severity⟩ := rc
    rw [runRulesLoop] at hok
    by_cases hsev : severity = 0
    · rw [if_pos hsev] at hok
      rcases List.mem_cons.mp hmem with heq | hmem'
      · obtain ⟨h1, h2⟩ := Prod.mk.injEq .. ▸ heq
        omega
      · exact ih probs evs hok rid sev rule hmem' hsevne hrule
    · rw [if_neg hsev] at hok
      cases hmap : ruleMapper ruleId with
      | none =>
        rw [hmap] at hok
        dsimp only at hok
        cases hrec : runRulesLoop repl ruleMapper rest with
        | error err => rw [hrec] at hok; simp at hok
        | ok pe =>
          obtain ⟨p', e'⟩ := pe
          rcases List.mem_cons.mp hmem with heq | hmem'
          · obtain ⟨h1, h2⟩ := Prod.mk.injEq .. ▸ heq
            subst h1
            rw [hmap] at hrule
            exact Option.noConfusion hrule
          · exact ih p' e' hrec rid sev rule hmem' hsevne hrule
      | some rule' =>
        rw [hmap] at hok
        dsimp only at hok
        by_cases hcr : rule'.createReturns = .undef ∨ rule'.createReturns = .nullv
        · rw [if_pos hcr] at hok
          simp at hok
        · rw [if_neg hcr] at hok
          cases hrec : runRulesLoop repl ruleMapper rest with
          | error err => rw [hrec] at hok; simp at hok
          | ok pe =>
            obtain ⟨p', e'⟩ := pe
            rcases List.mem_cons.mp hmem with heq | hmem'
            · obtain ⟨h1, h2⟩ := Prod.mk.injEq .. ▸ heq
              subst h1
              rw [hmap] at hrule
              obtain rfl := Option.some.injEq .. ▸ hrule
              exact hcr
            · exact ih p' e' hrec rid sev rule hmem' hsevne hrule

theorem runRulesLoop_createCall_count (repl : List Char → Option (List (List Char)))
    (ruleMapper : List Char → Option RuleDef) :
    ∀ (conf : List (List Char × Nat)) (probs : List LintProblem) (evs : List RuleEvent),
      runRulesLoop repl ruleMapper conf = .ok (probs, evs) →
      (conf.map Prod.fst).Nodup →
      ∀ ruleId sev rule, (ruleId, sev) ∈ conf → sev ≠ 0 → ruleMapper ruleId = some rule →
        evs.count (RuleEvent.createCall ruleId) = 1 := by
  intro conf
  induction conf with
  | nil =>
    intro probs evs _ _ rid sev rule hmem
    simp at hmem
  | cons rc rest ih =>
    intro probs evs hok hnd rid sev rule hmem hsevne hrule
    obtain ⟨ruleId, severity⟩ := rc
    have hnds : (∀ x : Nat, (ruleId, x) ∉ rest) ∧ (List.map Prod.fst rest).Nodup := by
      constructor
      · intro x hx
        have : ruleId ∈ List.map Prod.fst rest := List.mem_map.mpr ⟨(ruleId, x), hx, rfl⟩
        exact (List.nodup_cons.mp (by simpa using hnd)).1 this
      · exact (List.nodup_cons.mp (by simpa using hnd)).2
    rw [runRulesLoop] at hok
    by_cases hsev : severity = 0
    · rw [if_pos hsev] at hok
      rcases List.mem_cons.mp hmem with heq | hmem'
      · injection heq with h1 h2
        omega
      · exact ih probs evs hok hnds.2 rid sev rule hmem' hsevne hrule
    · rw [if_neg hsev] at hok
      cases hmap : ruleMapper ruleId with
      | none =>
        rw [hmap] at hok
        dsimp only at hok
        cases hrec : runRulesLoop repl ruleMapper rest with
        | error err => rw [hrec] at hok; simp at hok
        | ok pe =>
          obtain ⟨p', e'⟩ := pe
          rw [hrec] at hok
          simp only [Except.ok.injEq, Prod.mk.injEq] at hok
          obtain ⟨hp, he⟩ := hok
          subst hp he
          rcases List.mem_cons.mp hmem with heq | hmem'
          · injection heq with h1 h2
            subst h1
            rw [hmap] at hrule
            exact Option.noConfusion hrule
          · exact ih p' e' hrec hnds.2 rid sev rule hmem' hsevne hrule
      | some rule' =>
        rw [hmap] at hok
        dsimp only at hok
        by_cases hcr : rule'.createReturns = .undef ∨ rule'.createReturns = .nullv
        · rw [if_pos hcr] at hok
          simp at hok
        · rw [if_neg hcr] at hok
          cases hrec : runRulesLoop repl ruleMapper rest with
          | error err => rw [hrec] at hok; simp at hok
          | ok pe =>
            obtain ⟨p', e'⟩ := pe
            rw [hrec] at hok
            simp only [Except.ok.injEq, Prod.mk.injEq] at hok
            obtain ⟨hp, he⟩ := hok
            subst hp he
            have hmapcount : ∀ rid2 : List Char,
                ((objectKeys rule'.createReturns).map
                  (RuleEvent.listenerRegistered ruleId)).count (RuleEvent.createCall rid2) = 0 := by
              intro rid2
              rw [List.count_eq_zero]
              intro hbad
              obtain ⟨sel, _, hbad2⟩ := List.mem_map.mp hbad
              exact RuleEvent.noConfusion hbad2
            rcases List.mem_cons.mp hmem with heq | hmem'
            · injection heq with h1 h2
              subst h1
              have hcount0 : e'.count (RuleEvent.createCall rid) = 0 := by
                rw [List.count_eq_zero]
                intro hbad
                obtain ⟨sev2, rule2, hmem2, _, _⟩ :=
                  (runRulesLoop_ok_spec repl ruleMapper rest p' e' hrec).2.2 rid hbad
                exact hnds.1 sev2 hmem2
              rw [List.cons_append, List.count_cons_self, List.count_append,
                hmapcount rid, hcount0]
            · have hne2 : RuleEvent.createCall rid ≠ RuleEvent.createCall ruleId := by
                intro hbad
                injection hbad with hbad2
                subst hbad2
                exact hnds.1 sev hmem'
              have hcnt := ih p' e' hrec hnds.2 rid sev rule hmem' hsevne hrule
              rw [List.cons_append, List.count_cons_of_ne hne2, List.count_append,
                hmapcount rid, hcnt]

/-- C9 counterexample: a rule whose `create` returns the number 42 — neither
a function nor an object — does **not** cause an exception: the rule loop
completes normally, the `create` call having contributed no listeners
(`Object.keys(42)` is empty).  Only `undefined`/`null` returns throw. -/
theorem create_nonobject_counterexample :
    runRulesLoop (fun _ => none) (fun _ => some ⟨.num 42⟩) [(['r'], 2)] =
      .ok ([], [RuleEvent.createCall ['r']]) := by
  rfl

/-- C9 (amended): per lint, `rule.create` is invoked exactly once for every
configured, enabled, resolvable rule (when the run completes, the configured
rule ids being distinct); a `create` returning `undefined` or `null` raises
an exception (so a completed run contains no such rule); any other return
value — object, function, or other primitive — does not raise. -/
theorem create_invocation_contract (repl : List Char → Option (List (List Char)))
    (ruleMapper : List Char → Option RuleDef) (conf : List (List Char × Nat))
    (probs : List LintProblem) (evs : List RuleEvent)
    (hok : runRulesLoop repl ruleMapper conf = .ok (probs, evs))
    (hnd : (conf.map Prod.fst).Nodup) :
    (∀ ruleId sev rule, (ruleId, sev) ∈ conf → sev ≠ 0 → ruleMapper ruleId = some rule →
        evs.count (RuleEvent.createCall ruleId) = 1) ∧
      (∀ ruleId sev rule, (ruleId, sev) ∈ conf → sev ≠ 0 → ruleMapper ruleId = some rule →
        rule.createReturns ≠ .undef ∧ rule.createReturns ≠ .nullv) := by
  constructor
  · intro ruleId sev rule hmem hsev hrule
    exact runRulesLoop_createCall_count repl ruleMapper conf probs evs hok hnd
      ruleId sev rule hmem hsev hrule
  · intro ruleId sev rule hmem hsev hrule
    have := runRulesLoop_ok_no_bad_create repl ruleMapper conf probs evs hok
      ruleId sev rule hmem hsev hrule
    exact ⟨fun h => this (Or.inl h), fun h => this (Or.inr h)⟩

/-- C9 witness: the contract applied to one enabled rule whose `create`
returns an object with a single selector. -/
theorem create_invocation_contract_witness :
    (runRulesLoop (fun _ => none) (fun _ => some ⟨.obj [['S']]⟩) [(['r'], 2)] =
        .ok ([], [RuleEvent.createCall ['r'],
          RuleEvent.listenerRegistered ['r'] ['S']]) ∧
      (([(['r'], 2)] : List (List Char × Nat)).map Prod.fst).Nodup) ∧
      ((∀ ruleId sev rule, (ruleId, sev) ∈ ([(['r'], 2)] : List (List Char × Nat)) →
          sev ≠ 0 → (fun (_ : List Char) => some (⟨.obj [['S']]⟩ : RuleDef)) ruleId = some rule →
          ([RuleEvent.createCall ['r'], RuleEvent.listenerRegistered ['r'] ['S']].count
            (RuleEvent.createCall ruleId)) = 1) ∧
        (∀ ruleId sev rule, (ruleId, sev) ∈ ([(['r'], 2)] : List (List Char × Nat)) →
          sev ≠ 0 → (fun (_ : List Char) => some (⟨.obj [['S']]⟩ : RuleDef)) ruleId = some rule →
          rule.createReturns ≠ .undef ∧ rule.createReturns ≠ .nullv)) :=
  ⟨⟨by rfl, by decide⟩,
    create_invocation_contract (fun _ => none) (fun _ => some ⟨.obj [['S']]⟩) [(['r'], 2)]
      [] [RuleEvent.createCall ['r'], RuleEvent.listenerRegistered ['r'] ['S']]
      (by rfl) (by decide)⟩

theorem lineScanAux_mem_bounds :
    ∀ (t : List Char) (i : Nat) (acc : List Char),
      ∀ x ∈ (lineScanAux t i acc).1, i < x ∧ x ≤ i + t.length := by
  intro t i acc
  induction t, i, acc using lineScanAux.induct with
  | case1 i acc => simp [lineScanAux]
  | case2 restT i acc ss ls heq ih =>
    intro x hx
    simp only [lineScanAux, heq, List.mem_cons] at hx
    rw [heq] at ih
    rcases hx with rfl | hx
    · simp
    · have := ih x hx
      simp only [List.length_cons]
      omega
  | case3 c restT i acc hncrlf hbr ss ls heq ih =>
    intro x hx
    simp only [lineScanAux, heq, if_pos hbr, List.mem_cons] at hx
    rw [heq] at ih
    rcases hx with rfl | hx
    · simp
    · have := ih x hx
      simp only [List.length_cons]
      omega
  | case4 c restT i acc hncrlf hnbr ih =>
    intro x hx
    simp only [lineScanAux, if_neg hnbr] at hx
    have := ih x hx
    simp only [List.length_cons]
    omega

theorem lineScanAux_pairwise :
    ∀ (t : List Char) (i : Nat) (acc : List Char),
      (lineScanAux t i acc).1.Pairwise (· < ·) := by
  intro t i acc
  induction t, i, acc using lineScanAux.induct with
  | case1 i acc => simp [lineScanAux]
  | case2 restT i acc ss ls heq ih =>
    simp only [lineScanAux, heq]
    rw [heq] at ih
    refine List.pairwise_cons.mpr ⟨?_, ih⟩
    intro x hx
    exact (lineScanAux_mem_bounds restT (i + 2) [] x (by rw [heq]; exact hx)).1
  | case3 c restT i acc hncrlf hbr ss ls heq ih =>
    simp only [lineScanAux, heq, if_pos hbr]
    rw [heq] at ih
    refine List.pairwise_cons.mpr ⟨?_, ih⟩
    intro x hx
    exact (lineScanAux_mem_bounds restT (i + 1) [] x (by rw [heq]; exact hx)).1
  | case4 c restT i acc hncrlf hnbr ih =>
    simp only [lineScanAux, if_neg hnbr]
    exact ih

theorem lineScanAux_lines_length :
    ∀ (t : List Char) (i : Nat) (acc : List Char),
      (lineScanAux t i acc).2.length = (lineScanAux t i acc).1.length + 1 := by
  intro t i acc
  induction t, i, acc using lineScanAux.induct with
  | case1 i acc => simp [lineScanAux]
  | case2 restT i acc ss ls heq ih =>
    simp only [lineScanAux, heq, List.length_cons]
    rw [heq] at ih
    simpa using ih
  | case3 c restT i acc hncrlf hbr ss ls heq ih =>
    simp only [lineScanAux, heq, if_pos hbr, List.length_cons]
    rw [heq] at ih
    simpa using ih
  | case4 c restT i acc hncrlf hnbr ih =>
    simp only [lineScanAux, if_neg hnbr]
    exact ih

theorem getLastD_congr (l : List α) (d1 d2 : α) (h : l ≠ []) :
    l.getLastD d1 = l.getLastD d2 := by
  cases l with
  | nil => exact absurd rfl h
  | cons a l' => rw [List.getLastD_cons, List.getLastD_cons]

theorem lineScanAux_last_len :
    ∀ (t : List Char) (i : Nat) (acc : List Char), acc.length ≤ i →
      (lineScanAux t i acc).1.getLastD (i - acc.length) +
          ((lineScanAux t i acc).2.getLastD []).length = i + t.length := by
  intro t i acc
  induction t, i, acc using lineScanAux.induct with
  | case1 i acc =>
    intro hle
    simp only [lineScanAux, List.getLastD_nil, List.getLastD_cons, List.length_nil]
    omega
  | case2 restT i acc ss ls heq ih =>
    intro hle
    rw [heq] at ih
    have hlsne : ls ≠ [] := by
      have := lineScanAux_lines_length restT (i + 2) []
      rw [heq] at this
      intro hbad
      rw [hbad] at this
      simp at this
    simp only [lineScanAux, heq, List.getLastD_cons]
    rw [getLastD_congr ls acc [] hlsne]
    have := ih (by simp)
    simp only [List.length_nil, Nat.sub_zero] at this
    simp only [List.length_cons]
    omega
  | case3 c restT i acc hncrlf hbr ss ls heq ih =>
    intro hle
    rw [heq] at ih
    have hlsne : ls ≠ [] := by
      have := lineScanAux_lines_length restT (i + 1) []
      rw [heq] at this
      intro hbad
      rw [hbad] at this
      simp at this
    simp only [lineScanAux, heq, if_pos hbr, List.getLastD_cons]
    rw [getLastD_congr ls acc [] hlsne]
    have := ih (by simp)
    simp only [List.length_nil, Nat.sub_zero] at this
    simp only [List.length_cons]
    omega
  | case4 c restT i acc hncrlf hnbr ih =>
    intro hle
    simp only [lineScanAux, if_neg hnbr]
    have := ih (by simp; omega)
    simp only [List.length_append, List.length_cons, List.length_nil] at this
    simp only [List.length_cons]
    have heq2 : i + 1 - (acc.length + 1) = i - acc.length := by omega
    rw [heq2] at this
    omega

theorem lineStartIndices_ne_nil (t : List Char) : lineStartIndices t ≠ [] := by
  simp [lineStartIndices]

theorem lineStartIndices_pairwise (t : List Char) :
    (lineStartIndices t).Pairwise (· < ·) := by
  rw [lineStartIndices]
  refine List.pairwise_cons.mpr ⟨?_, lineScanAux_pairwise t 0 []⟩
  intro x hx
  exact (lineScanAux_mem_bounds t 0 [] x hx).1

theorem lineStartIndices_mem_le (t : List Char) :
    ∀ x ∈ lineStartIndices t, x ≤ t.length := by
  rw [lineStartIndices]
  intro x hx
  rcases List.mem_cons.mp hx with rfl | hx
  · exact Nat.zero_le _
  · have := (lineScanAux_mem_bounds t 0 [] x hx).2
    omega

theorem linesOf_length (t : List Char) :
    (linesOf t).length = (lineStartIndices t).length := by
  have h := lineScanAux_lines_length t 0 []
  simp only [linesOf, lineStartIndices, List.length_cons, h]

theorem lineStartIndices_last_rel (t : List Char) :
    (lineStartIndices t).getLastD 0 + ((linesOf t).getLastD []).length = t.length := by
  have h := lineScanAux_last_len t 0 [] (by simp)
  simp only [List.length_nil, Nat.sub_zero] at h
  rw [lineStartIndices, List.getLastD_cons]
  simpa [linesOf] using h

theorem sorted_getD_lt (S : List Nat) (h : S.Pairwise (· < ·)) (m n : Nat)
    (hmn : m < n) (hn : n < S.length) : S.getD m 0 < S.getD n 0 := by
  have hm : m < S.length := lt_trans hmn hn
  rw [List.getD_eq_getElem S 0 hm, List.getD_eq_getElem S 0 hn]
  exact List.pairwise_iff_getElem.mp h m n hm hn hmn

theorem sorted_getD_le (S : List Nat) (h : S.Pairwise (· < ·)) (m n : Nat)
    (hmn : m ≤ n) (hn : n < S.length) : S.getD m 0 ≤ S.getD n 0 := by
  rcases Nat.lt_or_ge m n with hlt | hge
  · exact Nat.le_of_lt (sorted_getD_lt S h m n hlt hn)
  · have : m = n := by omega
    rw [this]

theorem getLastD_eq_getD (S : List Nat) (h : S ≠ []) :
    S.getLastD 0 = S.getD (S.length - 1) 0 := by
  induction S with
  | nil => exact absurd rfl h
  | cons a l ih =>
    cases l with
    | nil => rfl
    | cons b l' =>
      rw [List.getLastD_cons, getLastD_congr (b :: l') a 0 (by simp), ih (by simp)]
      simp [List.getD_cons_succ]

theorem findIdx_of_getD (p : Nat → Bool) :
    ∀ (S : List Nat) (j : Nat), j < S.length → p (S.getD j 0) = true →
      (∀ m, m < j → p (S.getD m 0) = false) → S.findIdx p = j := by
  intro S
  induction S with
  | nil => intro j hj; simp at hj
  | cons a S' ih =>
    intro j hj hpj hb
    cases j with
    | zero =>
      rw [List.findIdx_cons]
      simp only [List.getD_cons_zero] at hpj
      simp [hpj]
    | succ j' =>
      have ha : p a = false := by simpa using hb 0 (Nat.succ_pos j')
      rw [List.findIdx_cons]
      simp only [ha, cond_false, Nat.add_right_cancel_iff]
      exact ih j' (by simpa using hj) (by simpa using hpj)
        (fun m hm => by simpa using hb (m + 1) (by omega))

theorem loc_index_roundtrip (t : List Char) (k : Nat) (hk : k ≤ t.length) :
    (getLocFromIndex t k).bind (getIndexFromLoc t) = some (k : Int) := by
  have hSne := lineStartIndices_ne_nil t
  have hpair := lineStartIndices_pairwise t
  have hmemle := lineStartIndices_mem_le t
  have hlastrel := lineStartIndices_last_rel t
  have hlineslen := linesOf_length t
  have hlastD := getLastD_eq_getD (lineStartIndices t) hSne
  have hlen0 : 0 < (lineStartIndices t).length := List.length_pos.mpr hSne
  have hget0 : (lineStartIndices t).getD 0 0 = 0 := by simp [lineStartIndices]
  have hlast2 : (lineStartIndices t).getD ((lineStartIndices t).length - 1) 0 +
      ((linesOf t).getLastD []).length = t.length := by rw [← hlastD]; exact hlastrel
  rcases Nat.eq_or_lt_of_le hk with hkeq | hklt
  · rw [hkeq, getLocFromIndex, if_neg (by omega), if_pos rfl, Option.some_bind,
      getIndexFromLoc]
    dsimp only
    rw [hlineslen, Int.toNat_natCast]
    rw [if_neg (by push_cast; omega), if_neg (by push_cast; omega)]
    rw [if_neg (by push_neg; constructor <;> intro <;> [skip; omega] <;> push_cast <;> omega)]
    congr 1
    push_cast
    omega
  · rw [getLocFromIndex, if_neg (by omega), if_neg (by omega), Option.some_bind,
      getIndexFromLoc]
    dsimp only
    by_cases hbr : (lineStartIndices t).getLastD 0 ≤ k
    · have hlinenum : lineNumberOf t k = (lineStartIndices t).length := by
        rw [lineNumberOf, if_pos hbr]
      rw [hlinenum, Int.toNat_natCast]
      rw [if_neg (by push_cast; omega), if_neg (by push_cast; omega)]
      rw [if_neg (by push_neg; constructor <;> intro <;> [skip; omega] <;> push_cast <;> omega)]
      congr 1
      push_cast
      ring
    · push_neg at hbr
      have hlastlt : k < (lineStartIndices t).getD ((lineStartIndices t).length - 1) 0 := by
        rw [← hlastD]; exact hbr
      have hQex : ∃ m, k < (lineStartIndices t).getD m 0 :=
        ⟨(lineStartIndices t).length - 1, hlastlt⟩
      have hQj0 : k < (lineStartIndices t).getD (Nat.find hQex) 0 := Nat.find_spec hQex
      have hmin : ∀ m, m < Nat.find hQex → ¬k < (lineStartIndices t).getD m 0 :=
        fun m hm => Nat.find_min hQex hm
      have hj0lt : Nat.find hQex < (lineStartIndices t).length := by
        rcases Nat.lt_or_ge (Nat.find hQex) (lineStartIndices t).length with h | h
        · exact h
        · exfalso
          rw [List.getD_eq_default _ _ h] at hQj0
          omega
      have hfi : (lineStartIndices t).findIdx (fun el => decide (k < el)) = Nat.find hQex :=
        findIdx_of_getD _ _ (Nat.find hQex) hj0lt (by simpa using hQj0)
          (fun m hm => by simpa using hmin m hm)
      have hj0pos : 0 < Nat.find hQex := by
        rcases Nat.eq_zero_or_pos (Nat.find hQex) with h0 | h0
        · exfalso
          rw [h0, hget0] at hQj0
          omega
        · exact h0
      have hbefore : (lineStartIndices t).getD (Nat.find hQex - 1) 0 ≤ k := by
        have := hmin (Nat.find hQex - 1) (by omega)
        omega
      have hlinenum : lineNumberOf t k = Nat.find hQex := by
        rw [lineNumberOf, if_neg (by omega), hfi]
      rw [hlinenum, Int.toNat_natCast]
      rw [if_neg (by push_cast; omega), if_neg (by push_cast; omega)]
      rw [if_neg ?hc]
      case hc =>
        push_neg
        constructor
        · intro hcon
          exfalso
          push_cast at hcon
          omega
        · intro _
          push_cast
          omega
      congr 1
      push_cast
      ring

theorem index_loc_roundtrip (t : List Char) (loc : LocLC) (idx : Int)
    (hcol : 0 ≤ loc.column) (hidx : getIndexFromLoc t loc = some idx) :
    getLocFromIndex t idx.toNat = some loc := by
  obtain ⟨line, col⟩ := loc
  dsimp only at hcol hidx
  have hSne := lineStartIndices_ne_nil t
  have hpair := lineStartIndices_pairwise t
  have hmemle := lineStartIndices_mem_le t
  have hlastrel := lineStartIndices_last_rel t
  have hlineslen := linesOf_length t
  have hlastD := getLastD_eq_getD (lineStartIndices t) hSne
  have hlen0 : 0 < (lineStartIndices t).length := List.length_pos.mpr hSne
  have hget0 : (lineStartIndices t).getD 0 0 = 0 := by simp [lineStartIndices]
  have hlast2 : (lineStartIndices t).getD ((lineStartIndices t).length - 1) 0 +
      ((linesOf t).getLastD []).length = t.length := by rw [← hlastD]; exact hlastrel
  rw [getIndexFromLoc] at hidx
  dsimp only at hidx
  by_cases h1 : line ≤ 0
  · rw [if_pos h1] at hidx
    simp at hidx
  rw [if_neg h1] at hidx
  by_cases h2 : line > ((lineStartIndices t).length : Int)
  · rw [if_pos h2] at hidx
    simp at hidx
  rw [if_neg h2] at hidx
  push_neg at h1 h2
  have hline : line = (line.toNat : Int) := (Int.toNat_of_nonneg (by omega)).symm
  have hn1 : 1 ≤ line.toNat := by omega
  have hnL : line.toNat ≤ (lineStartIndices t).length := by omega
  by_cases h3 : (line = ((lineStartIndices t).length : Int) ∧
        ((lineStartIndices t).getD (line.toNat - 1) 0 : Int) + col > (t.length : Int)) ∨
      (line < ((lineStartIndices t).length : Int) ∧
        ((lineStartIndices t).getD (line.toNat - 1) 0 : Int) + col ≥
          ((lineStartIndices t).getD line.toNat 0 : Int))
  · rw [if_pos h3] at hidx
    simp at hidx
  rw [if_neg h3] at hidx
  push_neg at h3
  have hidxeq : ((lineStartIndices t).getD (line.toNat - 1) 0 : Int) + col = idx :=
    Option.some.inj hidx
  have hsle : ((lineStartIndices t).getD (line.toNat - 1) 0 : Int) ≤ idx := by omega
  have hidx0 : 0 ≤ idx := le_trans (by positivity) hsle
  have hkcast : (idx.toNat : Int) = idx := Int.toNat_of_nonneg hidx0
  rcases Nat.lt_or_ge line.toNat (lineStartIndices t).length with hcase | hcase
  · -- line < length: idx < starts[line]
    have hlt : line < ((lineStartIndices t).length : Int) := by omega
    have hupper := h3.2 hlt
    have hgetmem : (lineStartIndices t).getD line.toNat 0 ∈ lineStartIndices t := by
      rw [List.getD_eq_getElem (lineStartIndices t) 0 hcase]
      exact List.getElem_mem _
    have hgetlen : (lineStartIndices t).getD line.toNat 0 ≤ t.length := hmemle _ hgetmem
    have hklen : idx.toNat < t.length := by omega
    have hlastge : (lineStartIndices t).getD line.toNat 0 ≤
        (lineStartIndices t).getD ((lineStartIndices t).length - 1) 0 :=
      sorted_getD_le _ hpair _ _ (by omega) (by omega)
    have hbrf : ¬(lineStartIndices t).getLastD 0 ≤ idx.toNat := by
      rw [hlastD]
      omega
    have hfi : (lineStartIndices t).findIdx (fun el => decide (idx.toNat < el)) =
        line.toNat := by
      refine findIdx_of_getD _ _ line.toNat hcase ?hgoal1 ?_
      case hgoal1 =>
        simp only [decide_eq_true_eq]
        omega
      intro m hm
      have hmle : (lineStartIndices t).getD m 0 ≤
          (lineStartIndices t).getD (line.toNat - 1) 0 :=
        sorted_getD_le _ hpair _ _ (by omega) (by omega)
      simp only [decide_eq_false_iff_not]
      omega
    rw [getLocFromIndex, if_neg (by omega), if_neg (by omega)]
    rw [lineNumberOf, if_neg hbrf, hfi]
    congr 1
    rw [LocLC.mk.injEq]
    constructor
    · omega
    · push_cast
      omega
  · -- line = length
    have heq : line = ((lineStartIndices t).length : Int) := by omega
    have hupper := h3.1 heq
    have hntop : line.toNat = (lineStartIndices t).length := by omega
    rw [hntop] at hidxeq hsle hupper
    rcases Nat.lt_or_ge idx.toNat t.length with hklt | hkge
    · -- idx < len: branch with lineNumberOf = length
      have hbrt : (lineStartIndices t).getLastD 0 ≤ idx.toNat := by
        rw [hlastD]
        omega
      rw [getLocFromIndex, if_neg (by omega), if_neg (by omega)]
      rw [lineNumberOf, if_pos hbrt]
      congr 1
      rw [LocLC.mk.injEq]
      constructor
      · omega
      · push_cast
        omega
    · -- idx = len
      have hkeq : idx.toNat = t.length := by omega
      rw [getLocFromIndex, if_neg (by omega), if_pos hkeq]
      congr 1
      rw [LocLC.mk.injEq]
      constructor
      · push_cast
        omega
      · push_cast
        omega

/-- C1 counterexample: `getIndexFromLoc` performs no lower-bound check on the
column, so on the text `ab\ncd` it accepts the location `(2, -1)` without
throwing and returns offset 2; `getLocFromIndex` maps 2 back to `(1, 2)`,
not `(2, -1)` — so the round trip fails on an accepted `(line, column)`
pair. -/
theorem position_roundtrip_counterexample :
    getIndexFromLoc ['a', 'b', '\n', 'c', 'd'] ⟨2, -1⟩ = some 2 ∧
      getLocFromIndex ['a', 'b', '\n', 'c', 'd'] ((2 : Int)).toNat = some ⟨1, 2⟩ ∧
      (⟨1, 2⟩ : LocLC) ≠ ⟨2, -1⟩ :=
  ⟨by decide, by decide, by decide⟩

/-- C1 (amended): for every offset `k` with `0 ≤ k ≤ len(text)`,
`getIndexFromLoc (getLocFromIndex k) = k`; and for every `(line, column)`
pair with `column ≥ 0` that `getIndexFromLoc` accepts without throwing,
`getLocFromIndex (getIndexFromLoc loc)` equals `loc`.  (The restriction
`column ≥ 0` is necessary: the code does not check the column's lower bound,
and accepted negative columns break the round trip.) -/
theorem position_roundtrip (t : List Char) :
    (∀ k : Nat, k ≤ t.length →
        (getLocFromIndex t k).bind (getIndexFromLoc t) = some (k : Int)) ∧
      (∀ (loc : LocLC) (idx : Int), 0 ≤ loc.column → getIndexFromLoc t loc = some idx →
        getLocFromIndex t idx.toNat = some loc) :=
  ⟨fun k hk => loc_index_roundtrip t k hk,
    fun loc idx hc hi => index_loc_roundtrip t loc idx hc hi⟩

/-- C1 witness: the round trip applied to the text `ab\ncd` at offset 3 and
at the location `(2, 1)`. -/
theorem position_roundtrip_witness :
    (((3 : Nat) ≤ (['a', 'b', '\n', 'c', 'd'] : List Char).length) ∧
      (getLocFromIndex ['a', 'b', '\n', 'c', 'd'] 3).bind
        (getIndexFromLoc ['a', 'b', '\n', 'c', 'd']) = some 3) ∧
      ((0 : Int) ≤ (LocLC.mk 2 1).column ∧
        getIndexFromLoc ['a', 'b', '\n', 'c', 'd'] ⟨2, 1⟩ = some 4 ∧
        getLocFromIndex ['a', 'b', '\n', 'c', 'd'] ((4 : Int)).toNat = some ⟨2, 1⟩) :=
  ⟨⟨by decide, (position_roundtrip ['a', 'b', '\n', 'c', 'd']).1 3 (by decide)⟩,
    ⟨by decide, by decide,
      (position_roundtrip ['a', 'b', '\n', 'c', 'd']).2 ⟨2, 1⟩ 4 (by decide) (by decide)⟩⟩
